import Mathlib

/-!
Formal model of the `OnOffMixin` event registry (`onoff.py`): the methods
`on`, `off`, `once` and `trigger` over the `_on_off_events` dictionary, and
proofs of the behavioural properties of registration, removal and dispatch.

Modelling choices, all taken from the source:
* Callbacks are opaque callables compared with `!=` in `off`; we identify a
  callback by an opaque natural-number id.  Invoking a callback appends an
  entry to a trace; a callback may be designated as raising (for the fault
  propagation properties) by a `fails` assignment.
* The dictionaries built by `on` are mutable Python objects; `on` appends a
  fresh `.copy()` per event, so every stored record is a distinct object.
  Object identity is modelled by an `oid` field drawn from an allocation
  counter, and the in-place `calls` increment performed by `trigger` updates
  the record with the matching `oid` wherever the dict currently holds it.
* `off` rebinds the dict entry to a freshly built list, so the `for` loop in
  `trigger`, which iterates over the list object fetched at the start of the
  pass, is unaffected by removals: `trigger` dispatches over a stable
  snapshot.  `trigger` reads that snapshot once and passes it along.
* Exceptions (`KeyError` from a missing key in `off`, a raising callback in
  `trigger`) abort the remaining iterations and escape; the registry state at
  that moment is returned alongside the fault, since Python does not roll the
  object back when an exception propagates.
-/

set_option maxHeartbeats 1000000

namespace Onoff

/-- A listener record, modelling the dictionary built by `on` with keys
callback, times and calls.  `oid` models the Python object identity of the
record (each `.copy()` appended by `on` is a fresh object). -/
structure CallbackObj where
  oid : Nat
  callback : Nat
  times : Option Int
  calls : Nat
  deriving DecidableEq

/-- The mixin state set up by `__init__`: the `_on_off_events` dictionary as
an insertion-ordered association list, plus the allocation counter for fresh
object identities. -/
structure OnOffState where
  events : List (String × List CallbackObj)
  nextOid : Nat
  deriving DecidableEq

/-- Dictionary lookup: the binding of the key, if present.  Also models the
membership test used by `trigger`. -/
def dictGet? (m : List (String × List CallbackObj)) (k : String) :
    Option (List CallbackObj) :=
  match m with
  | [] => none
  | (a, b) :: rest => if a = k then some b else dictGet? rest k

/-- Dictionary store: replace the binding if the key is present, else append
it (Python dicts keep insertion order and put new keys last). -/
def dictSet (m : List (String × List CallbackObj)) (k : String)
    (v : List CallbackObj) : List (String × List CallbackObj) :=
  match m with
  | [] => [(k, v)]
  | (a, b) :: rest => if a = k then (k, v) :: rest else (a, b) :: dictSet rest k v

/-- `__init__`: the registry starts empty. -/
def initState : OnOffState := ⟨[], 0⟩

/-- One iteration of the loop in `on`: `setdefault(event, [])` followed by
appending a fresh copy of the record with calls set to 0. -/
def onOne (st : OnOffState) (event : String) (callback : Nat)
    (times : Option Int) : OnOffState :=
  ⟨dictSet st.events event
      (((dictGet? st.events event).getD []) ++ [⟨st.nextOid, callback, times, 0⟩]),
    st.nextOid + 1⟩

/-- `on(events, callback, times)`, with `events` already normalised to a list
of names. -/
def «on» (st : OnOffState) (events : List String) (callback : Nat)
    (times : Option Int) : OnOffState :=
  events.foldl (fun s ev => onOne s ev callback times) st

/-- The exceptions the registry can let escape: the `KeyError` raised by
`off` on a missing event name, and a fault raised by a listener callback
during `trigger`. -/
inductive Fault where
  | keyError (event : String)
  | listenerFault (callback : Nat)
  deriving DecidableEq

/-- One iteration of the loop in `off`: rebind the event's entry to the list
of records whose callback differs from the argument.  `none` models the
`KeyError` raised when the event key is absent. -/
def offOne (st : OnOffState) (event : String) (callback : Nat) :
    Option OnOffState :=
  match dictGet? st.events event with
  | none => none
  | some lst =>
    some ⟨dictSet st.events event (lst.filter fun o => o.callback != callback),
      st.nextOid⟩

/-- `off(events, callback)`, with `events` normalised to a list.  The first
component is the registry when the call returns, or when the `KeyError`
escapes (the names before the missing one have already been processed and
Python does not roll the object back); the second is the escaping fault. -/
def off (st : OnOffState) (events : List String) (callback : Nat) :
    OnOffState × Option Fault :=
  match events with
  | [] => (st, none)
  | ev :: rest =>
    match offOne st ev callback with
    | none => (st, some (Fault.keyError ev))
    | some st' => off st' rest callback

/-- `once(events, callback)`: a shortcut for `on(events, callback, 1)`. -/
def once (st : OnOffState) (events : List String) (callback : Nat) :
    OnOffState :=
  «on» st events callback (some 1)

/-- The auto-removal test in `trigger`: the record's calls counter, read
after the in-place increment, equals its times value (`==` against `None` is
false).  `rec` holds the pre-increment counter, and a record object is
incremented exactly once per pass, at its own step, so the post-increment
value is `rec.calls + 1`. -/
def limitReached (rec : CallbackObj) : Bool :=
  decide (rec.times = some ((rec.calls : Int) + 1))

/-- The successful-case registry update of one `off` iteration (used to state
what a partially completed `off` call has already done). -/
def offApply (st : OnOffState) (event : String) (callback : Nat) : OnOffState :=
  ⟨dictSet st.events event
      (((dictGet? st.events event).getD []).filter fun o => o.callback != callback),
    st.nextOid⟩

/-- The pure-list effect of one body of the dispatch loop on the event's
current list: the fired record object is incremented in place (it is the
unique record with its `oid`), and if its limit was reached, `off` rebinds
the entry to the records whose callback differs from the fired record's. -/
def stepL (rec : CallbackObj) (L : List CallbackObj) : List CallbackObj :=
  let L1 := L.map fun q => if q.oid = rec.oid then ⟨q.oid, q.callback, q.times, q.calls + 1⟩ else q
  if limitReached rec then L1.filter fun q => q.callback != rec.callback else L1

/-- Folding `stepL` over a dispatch snapshot: the pure-list view of a
complete dispatch pass for one event. -/
def passFold : List CallbackObj → List CallbackObj → List CallbackObj
  | [], L => L
  | rec :: rest, L => passFold rest (stepL rec L)

/-- The inner loop of `trigger` for one event: iterate over the snapshot
list fetched at the start of the pass (rebinding the dict entry does not
affect this iteration), invoke each record's callback (recording it in the
trace, or aborting with a fault when the callback raises), increment the
record object in place, and call `off` for its callback when its limit is
reached.  The last component is the escaping exception, if any. -/
def triggerSnap (fails : Nat → Bool) (ev : String) (args : List Nat) :
    List CallbackObj → OnOffState → List (Nat × List Nat) →
    OnOffState × List (Nat × List Nat) × Option Fault
  | [], st, tr => (st, tr, none)
  | rec :: rest, st, tr =>
    if fails rec.callback then
      (st, tr ++ [(rec.callback, args)], some (Fault.listenerFault rec.callback))
    else
      let tr' := tr ++ [(rec.callback, args)]
      let st1 : OnOffState :=
        match dictGet? st.events ev with
        | some L =>
          ⟨dictSet st.events ev (L.map fun q =>
              if q.oid = rec.oid then ⟨q.oid, q.callback, q.times, q.calls + 1⟩ else q),
            st.nextOid⟩
        | none => st
      if limitReached rec then
        match offOne st1 ev rec.callback with
        | some st2 => triggerSnap fails ev args rest st2 tr'
        | none => (st1, tr', some (Fault.keyError ev))
      else
        triggerSnap fails ev args rest st1 tr'

/-- The outer loop of `trigger` over the event names: skip names that are not
dictionary keys, dispatch a pass for the others, and let faults escape. -/
def triggerEvents (fails : Nat → Bool) (args : List Nat) :
    List String → OnOffState → List (Nat × List Nat) →
    OnOffState × List (Nat × List Nat) × Option Fault
  | [], st, tr => (st, tr, none)
  | ev :: rest, st, tr =>
    match dictGet? st.events ev with
    | none => triggerEvents fails args rest st tr
    | some snapshot =>
      match triggerSnap fails ev args snapshot st tr with
      | (st', tr', none) => triggerEvents fails args rest st' tr'
      | (st', tr', some e) => (st', tr', some e)

/-- `trigger(events, args)`, with `events` normalised to a list.  `fails`
designates the callbacks that raise when invoked; the trace lists the
invocations performed, in order, each with the arguments passed through
unchanged. -/
def trigger (fails : Nat → Bool) (st : OnOffState) (events : List String)
    (args : List Nat) : OnOffState × List (Nat × List Nat) × Option Fault :=
  triggerEvents fails args events st []

/-- The callback assignment in which no callback raises. -/
def noFail : Nat → Bool := fun _ => false

/-- The records produced by registering a list of callbacks one at a time
with no limit, starting from allocation counter `n`. -/
def mkRecs : List Nat → Nat → List CallbackObj
  | [], _ => []
  | c :: cs, n => ⟨n, c, none, 0⟩ :: mkRecs cs (n + 1)

/-- Iterated publishing of a single event with fixed arguments. -/
def pubIter (ev : String) (args : List Nat) : Nat → OnOffState → OnOffState
  | 0, st => st
  | k + 1, st => (trigger noFail (pubIter ev args k st) [ev] args).1

/-- Well-formedness of one event's record list: object identities are
distinct and below the allocation counter, and every record with a positive
limit has strictly fewer calls than its limit. -/
def goodList (L : List CallbackObj) (n : Nat) : Prop :=
  (L.map fun r => r.oid).Nodup ∧
  (∀ r ∈ L, r.oid < n) ∧
  (∀ r ∈ L, ∀ t : Int, r.times = some t → 0 < t → (r.calls : Int) < t)

/-- The registry invariant: every event's list is well formed. -/
def Inv (st : OnOffState) : Prop :=
  ∀ p ∈ st.events, goodList p.2 st.nextOid

/-! ## Dictionary lemmas -/

theorem dictGet?_dictSet (m : List (String × List CallbackObj)) (k k' : String)
    (v : List CallbackObj) :
    dictGet? (dictSet m k v) k' = if k' = k then some v else dictGet? m k' := by
  induction m with
  | nil =>
    by_cases h : k = k' <;> simp_all [dictGet?, dictSet, eq_comm]
  | cons p rest ih =>
    obtain ⟨a, b⟩ := p
    by_cases hak : a = k <;> by_cases h2 : a = k' <;>
      simp_all [dictGet?, dictSet, eq_comm]

theorem dictSet_same (m : List (String × List CallbackObj)) (k : String)
    (v : List CallbackObj) (h : dictGet? m k = some v) : dictSet m k v = m := by
  induction m with
  | nil => simp [dictGet?] at h
  | cons p rest ih =>
    obtain ⟨a, b⟩ := p
    by_cases hak : a = k
    · subst hak
      simp [dictGet?] at h
      simp [dictSet, h]
    · simp [dictGet?, hak] at h
      simp [dictSet, hak, ih h]

theorem dictSet_dictSet (m : List (String × List CallbackObj)) (k : String)
    (v v' : List CallbackObj) : dictSet (dictSet m k v) k v' = dictSet m k v' := by
  induction m with
  | nil => simp [dictSet]
  | cons p rest ih =>
    obtain ⟨a, b⟩ := p
    by_cases hak : a = k
    · subst hak
      simp [dictSet]
    · simp [dictSet, hak, ih]

theorem mem_dictSet (m : List (String × List CallbackObj)) (k : String)
    (v : List CallbackObj) (p : String × List CallbackObj)
    (hp : p ∈ dictSet m k v) : p = (k, v) ∨ p ∈ m := by
  induction m with
  | nil =>
    simp [dictSet] at hp
    exact Or.inl hp
  | cons q rest ih =>
    obtain ⟨a, b⟩ := q
    by_cases hak : a = k
    · subst hak
      simp [dictSet] at hp
      rcases hp with h | h
      · exact Or.inl (by simp [h])
      · exact Or.inr (by simp [h])
    · simp [dictSet, hak] at hp
      rcases hp with h | h
      · exact Or.inr (by simp [h])
      · rcases ih h with h' | h'
        · exact Or.inl h'
        · exact Or.inr (by simp [h'])

theorem dictGet?_mem (m : List (String × List CallbackObj)) (k : String)
    (v : List CallbackObj) (h : dictGet? m k = some v) : (k, v) ∈ m := by
  induction m with
  | nil => simp [dictGet?] at h
  | cons p rest ih =>
    obtain ⟨a, b⟩ := p
    by_cases hak : a = k
    · subst hak
      simp [dictGet?] at h
      simp [h]
    · simp [dictGet?, hak] at h
      simp [ih h]

/-! ## Lemmas about `off` -/

theorem offOne_none {st st' : OnOffState} {ev x : String} {cb : Nat}
    (h : offOne st ev cb = some st') (hx : dictGet? st.events x = none) :
    dictGet? st'.events x = none := by
  unfold offOne at h
  cases hev : dictGet? st.events ev with
  | none => rw [hev] at h; cases h
  | some lst =>
    rw [hev] at h
    have hne : x ≠ ev := by
      rintro rfl
      rw [hev] at hx
      cases hx
    simp only [Option.some.injEq] at h
    rw [← h]
    show dictGet? (dictSet st.events ev _) x = none
    rw [dictGet?_dictSet, if_neg hne]
    exact hx

theorem offOne_eq_offApply {st : OnOffState} {ev : String} {cb : Nat}
    (h : (dictGet? st.events ev).isSome) :
    offOne st ev cb = some (offApply st ev cb) := by
  unfold offOne offApply
  cases hev : dictGet? st.events ev with
  | none => rw [hev] at h; cases h
  | some lst => simp [hev]

/-! ## Characterisation of a dispatch pass -/

theorem triggerSnap_run (fails : Nat → Bool) (ev : String) (args : List Nat)
    (S : List CallbackObj) :
    ∀ (st : OnOffState) (tr : List (Nat × List Nat)) (L : List CallbackObj),
    dictGet? st.events ev = some L →
    (∀ r ∈ S, fails r.callback = false) →
    triggerSnap fails ev args S st tr =
      (⟨dictSet st.events ev (passFold S L), st.nextOid⟩,
        tr ++ S.map (fun r => (r.callback, args)), none) := by
  induction S with
  | nil =>
    intro st tr L hL _
    rw [passFold, dictSet_same st.events ev L hL]
    simp [triggerSnap]
  | cons rec rest ih =>
    intro st tr L hL hfails
    have hf : fails rec.callback = false := hfails rec (by simp)
    have hincr :
        dictGet? (dictSet st.events ev (L.map fun q =>
            if q.oid = rec.oid then ⟨q.oid, q.callback, q.times, q.calls + 1⟩ else q)) ev =
          some (L.map fun q =>
            if q.oid = rec.oid then ⟨q.oid, q.callback, q.times, q.calls + 1⟩ else q) := by
      rw [dictGet?_dictSet, if_pos rfl]
    by_cases hlim : limitReached rec
    · rw [triggerSnap]
      simp only [hf, Bool.false_eq_true, if_false, hL, hlim, if_true]
      rw [offOne]
      simp only [hincr]
      rw [ih _ _ ((L.map fun q =>
            if q.oid = rec.oid then ⟨q.oid, q.callback, q.times, q.calls + 1⟩ else q).filter
            fun q => q.callback != rec.callback)
          (by rw [dictGet?_dictSet, dictGet?_dictSet]; simp) (fun r hr => hfails r (by simp [hr]))]
      rw [passFold]
      simp only [dictSet_dictSet, stepL, hlim, if_true, List.map_cons, List.append_assoc,
        List.cons_append, List.nil_append]
    · rw [Bool.not_eq_true] at hlim
      rw [triggerSnap]
      simp only [hf, Bool.false_eq_true, if_false, hL, hlim]
      rw [ih _ _ (L.map fun q =>
            if q.oid = rec.oid then ⟨q.oid, q.callback, q.times, q.calls + 1⟩ else q)
          (by rw [dictGet?_dictSet]; simp) (fun r hr => hfails r (by simp [hr]))]
      rw [passFold]
      simp only [dictSet_dictSet, stepL, hlim, Bool.false_eq_true, if_false, List.map_cons,
        List.append_assoc, List.cons_append, List.nil_append]

theorem triggerSnap_fault (fails : Nat → Bool) (ev : String) (args : List Nat)
    (L₁ : List CallbackObj) (rec : CallbackObj) (L₂ : List CallbackObj) :
    ∀ (st : OnOffState) (tr : List (Nat × List Nat)) (L : List CallbackObj),
    dictGet? st.events ev = some L →
    (∀ r ∈ L₁, fails r.callback = false) →
    fails rec.callback = true →
    triggerSnap fails ev args (L₁ ++ rec :: L₂) st tr =
      (⟨dictSet st.events ev (passFold L₁ L), st.nextOid⟩,
        tr ++ (L₁ ++ [rec]).map (fun r => (r.callback, args)),
        some (Fault.listenerFault rec.callback)) := by
  induction L₁ with
  | nil =>
    intro st tr L hL _ hrec
    rw [passFold, dictSet_same st.events ev L hL]
    simp [triggerSnap, hrec]
  | cons p rest ih =>
    intro st tr L hL hfails hrec
    have hf : fails p.callback = false := hfails p (by simp)
    have hincr :
        dictGet? (dictSet st.events ev (L.map fun q =>
            if q.oid = p.oid then ⟨q.oid, q.callback, q.times, q.calls + 1⟩ else q)) ev =
          some (L.map fun q =>
            if q.oid = p.oid then ⟨q.oid, q.callback, q.times, q.calls + 1⟩ else q) := by
      rw [dictGet?_dictSet, if_pos rfl]
    by_cases hlim : limitReached p
    · rw [List.cons_append, triggerSnap]
      simp only [hf, Bool.false_eq_true, if_false, hL, hlim, if_true]
      rw [offOne]
      simp only [hincr]
      rw [ih _ _ ((L.map fun q =>
            if q.oid = p.oid then ⟨q.oid, q.callback, q.times, q.calls + 1⟩ else q).filter
            fun q => q.callback != p.callback)
          (by rw [dictGet?_dictSet, dictGet?_dictSet]; simp)
          (fun r hr => hfails r (by simp [hr])) hrec]
      rw [passFold]
      simp only [dictSet_dictSet, stepL, hlim, if_true, List.map_cons, List.append_assoc,
        List.cons_append, List.nil_append]
    · rw [Bool.not_eq_true] at hlim
      rw [List.cons_append, triggerSnap]
      simp only [hf, Bool.false_eq_true, if_false, hL, hlim]
      rw [ih _ _ (L.map fun q =>
            if q.oid = p.oid then ⟨q.oid, q.callback, q.times, q.calls + 1⟩ else q)
          (by rw [dictGet?_dictSet]; simp) (fun r hr => hfails r (by simp [hr])) hrec]
      rw [passFold]
      simp only [dictSet_dictSet, stepL, hlim, Bool.false_eq_true, if_false, List.map_cons,
        List.append_assoc, List.cons_append, List.nil_append]

theorem trigger_one (fails : Nat → Bool) (st : OnOffState) (ev : String)
    (args : List Nat) (S : List CallbackObj)
    (h : dictGet? st.events ev = some S)
    (hf : ∀ r ∈ S, fails r.callback = false) :
    trigger fails st [ev] args =
      (⟨dictSet st.events ev (passFold S S), st.nextOid⟩,
        S.map (fun r => (r.callback, args)), none) := by
  rw [trigger, triggerEvents.eq_def]
  simp only [h]
  rw [triggerSnap_run fails ev args S st [] S h hf]
  simp [triggerEvents]

/-- The registration performed by folding `on` over a callback list: the
event's entry grows by one fresh unbounded record per callback, in order. -/
theorem on_fold_entry (cbs : List Nat) :
    ∀ (st : OnOffState) (ev : String) (L : List CallbackObj),
    dictGet? st.events ev = some L →
    dictGet? ((cbs.foldl (fun s c => «on» s [ev] c none) st)).events ev =
      some (L ++ mkRecs cbs st.nextOid) := by
  induction cbs with
  | nil =>
    intro st ev L h
    simpa [mkRecs] using h
  | cons c cs ih =>
    intro st ev L h
    rw [List.foldl_cons]
    have hone : («on» st [ev] c none) = onOne st ev c none := rfl
    rw [hone]
    have hentry : dictGet? (onOne st ev c none).events ev =
        some (L ++ [⟨st.nextOid, c, none, 0⟩]) := by
      unfold onOne
      rw [dictGet?_dictSet, if_pos rfl, h]
      rfl
    have := ih (onOne st ev c none) ev (L ++ [⟨st.nextOid, c, none, 0⟩]) hentry
    rw [this]
    have hnext : (onOne st ev c none).nextOid = st.nextOid + 1 := rfl
    rw [hnext, mkRecs, List.append_assoc, List.singleton_append]

theorem mkRecs_trace (cbs : List Nat) (args : List Nat) :
    ∀ n : Nat, (mkRecs cbs n).map (fun r => (r.callback, args)) =
      cbs.map (fun c => (c, args)) := by
  induction cbs with
  | nil => intro n; rfl
  | cons c cs ih => intro n; rw [mkRecs, List.map_cons, List.map_cons, ih]

/-! ## Claim theorems: dispatch traces -/

/-- Claim C2: one publish of an event name invokes exactly the records
present in that name's list at the start of the dispatch pass, each exactly
once and in sequence order (the inner loop iterates over the list object
fetched at pass start, which mid-pass removals rebind but never mutate), and
the final registry entry is the fold of the per-record updates. -/
theorem onoff_C2 (st : OnOffState) (ev : String) (args : List Nat)
    (S : List CallbackObj) (h : dictGet? st.events ev = some S) :
    trigger noFail st [ev] args =
      (⟨dictSet st.events ev (passFold S S), st.nextOid⟩,
        S.map (fun r => (r.callback, args)), none) :=
  trigger_one noFail st ev args S h (fun _ _ => rfl)

/-- Witness for C2: a concrete pass in which the first record hits its limit
mid-pass and the remaining snapshot records are still each invoked once. -/
theorem onoff_C2_witness :
    trigger noFail («on» («on» initState ["e"] 3 (some 1)) ["e"] 8 none) ["e"] [9] =
      (⟨dictSet («on» («on» initState ["e"] 3 (some 1)) ["e"] 8 none).events "e"
          (passFold [⟨0, 3, some 1, 0⟩, ⟨1, 8, none, 0⟩] [⟨0, 3, some 1, 0⟩, ⟨1, 8, none, 0⟩]),
        («on» («on» initState ["e"] 3 (some 1)) ["e"] 8 none).nextOid⟩,
        ([⟨0, 3, some 1, 0⟩, ⟨1, 8, none, 0⟩] : List CallbackObj).map
          (fun r => (r.callback, [9])), none) :=
  onoff_C2 («on» («on» initState ["e"] 3 (some 1)) ["e"] 8 none) "e" [9]
    [⟨0, 3, some 1, 0⟩, ⟨1, 8, none, 0⟩] (by decide)

/-- Claim C4: registering a list of callbacks one at a time on the same name
with no limit, then publishing once, invokes each registered record's
callback with the published arguments exactly once, in registration order;
a callback registered twice occurs twice in the list and hence twice in the
trace (no deduplication), and no fault is raised. -/
theorem onoff_C4 (cbs : List Nat) (args : List Nat) :
    (trigger noFail (cbs.foldl (fun s c => «on» s ["e"] c none) initState) ["e"] args).2.1 =
        cbs.map (fun c => (c, args)) ∧
    (trigger noFail (cbs.foldl (fun s c => «on» s ["e"] c none) initState) ["e"] args).2.2 =
        none := by
  cases cbs with
  | nil => exact ⟨rfl, rfl⟩
  | cons c cs =>
    have h0 : dictGet? («on» initState ["e"] c none).events "e" =
        some [⟨0, c, none, 0⟩] := rfl
    have h1 := on_fold_entry cs («on» initState ["e"] c none) "e" [⟨0, c, none, 0⟩] h0
    have hnext : («on» initState ["e"] c none).nextOid = 1 := rfl
    rw [hnext] at h1
    rw [List.foldl_cons]
    rw [trigger_one noFail _ "e" args ([⟨0, c, none, 0⟩] ++ mkRecs cs 1) h1 (fun _ _ => rfl)]
    refine ⟨?_, rfl⟩
    rw [List.map_append, mkRecs_trace cs args 1]
    rfl

/-- Claim C7: when a callback raises mid-dispatch, the fault propagates out
of `trigger`: the trace contains exactly the records before the faulting one
and the faulting invocation itself — no later record of the current name and
no record of any subsequent name is invoked — and the registry keeps the
increments already applied for the records that ran (the fold over the
prefix), with no rollback and no increment for the faulting record. -/
theorem onoff_C7 (fails : Nat → Bool) (st : OnOffState) (ev : String)
    (names : List String) (args : List Nat) (L₁ : List CallbackObj)
    (rec : CallbackObj) (L₂ : List CallbackObj)
    (h : dictGet? st.events ev = some (L₁ ++ rec :: L₂))
    (hok : ∀ r ∈ L₁, fails r.callback = false)
    (hrec : fails rec.callback = true) :
    trigger fails st (ev :: names) args =
      (⟨dictSet st.events ev (passFold L₁ (L₁ ++ rec :: L₂)), st.nextOid⟩,
        (L₁ ++ [rec]).map (fun r => (r.callback, args)),
        some (Fault.listenerFault rec.callback)) := by
  rw [trigger, triggerEvents.eq_def]
  simp only [h]
  rw [triggerSnap_fault fails ev args L₁ rec L₂ st [] (L₁ ++ rec :: L₂) h hok hrec]
  simp

/-- Witness for C7: callback 1 raises; callback 0 has run (and was
incremented), callback 2 on the same name and callback 9 on the next name
are never invoked. -/
theorem onoff_C7_witness :
    trigger (fun c => c == 1)
      («on» («on» («on» («on» initState ["e"] 0 none) ["e"] 1 none) ["e"] 2 none)
        ["f"] 9 none)
      ["e", "f"] [] =
      (⟨dictSet («on» («on» («on» («on» initState ["e"] 0 none) ["e"] 1 none) ["e"] 2 none)
            ["f"] 9 none).events "e"
          (passFold [⟨0, 0, none, 0⟩]
            ([⟨0, 0, none, 0⟩] ++ ⟨1, 1, none, 0⟩ :: [⟨2, 2, none, 0⟩])),
        («on» («on» («on» («on» initState ["e"] 0 none) ["e"] 1 none) ["e"] 2 none)
            ["f"] 9 none).nextOid⟩,
        (([⟨0, 0, none, 0⟩] ++ [⟨1, 1, none, 0⟩]) : List CallbackObj).map
          (fun r => (r.callback, [])),
        some (Fault.listenerFault 1)) :=
  onoff_C7 (fun c => c == 1) _ "e" ["f"] [] [⟨0, 0, none, 0⟩] ⟨1, 1, none, 0⟩
    [⟨2, 2, none, 0⟩] (by decide) (by decide) (by decide)

/-! ## Claim theorems: closed computations and `off` behaviour -/

/-- Claim C5: after `subscribe(e, cb, limit=3)`, four `publish(e)` calls
invoke `cb` on each of the first three publishes and not on the fourth, for
3 invocations in total; the record is removed when its count reaches 3. -/
theorem onoff_C5 :
    (trigger noFail (pubIter "e" [] 0 («on» initState ["e"] 7 (some 3))) ["e"] []).2.1 =
      [(7, [])] ∧
    (trigger noFail (pubIter "e" [] 1 («on» initState ["e"] 7 (some 3))) ["e"] []).2.1 =
      [(7, [])] ∧
    (trigger noFail (pubIter "e" [] 2 («on» initState ["e"] 7 (some 3))) ["e"] []).2.1 =
      [(7, [])] ∧
    (trigger noFail (pubIter "e" [] 3 («on» initState ["e"] 7 (some 3))) ["e"] []).2.1 =
      [] ∧
    dictGet? (pubIter "e" [] 4 («on» initState ["e"] 7 (some 3))).events "e" =
      some [] := by decide

/-- Claim C8: publishing an event name that was never subscribed invokes no
callback, raises no fault, returns normally, and leaves the registry state
unchanged. -/
theorem onoff_C8 (fails : Nat → Bool) (st : OnOffState) (e : String)
    (args : List Nat) (h : dictGet? st.events e = none) :
    trigger fails st [e] args = (st, [], none) := by
  simp [trigger, triggerEvents, h]

/-- Witness for C8 at a concrete never-subscribed name. -/
theorem onoff_C8_witness :
    trigger noFail initState ["x"] [] = (initState, [], none) :=
  onoff_C8 noFail initState "x" [] rfl

/-- Claim C3: `unsubscribe` with a name that has no entry in the mapping
propagates a key-lookup fault (`KeyError`) instead of silently no-opping. -/
theorem onoff_C3 (names : List String) (st : OnOffState) (cb : Nat)
    (n : String) (hn : n ∈ names) (habs : dictGet? st.events n = none) :
    ∃ m, (off st names cb).2 = some (Fault.keyError m) := by
  induction names generalizing st with
  | nil => cases hn
  | cons ev rest ih =>
    cases hoff : offOne st ev cb with
    | none => exact ⟨ev, by simp [off, hoff]⟩
    | some st' =>
      rcases List.mem_cons.mp hn with h | h
      · subst h
        unfold offOne at hoff
        rw [habs] at hoff
        cases hoff
      · obtain ⟨m, hm⟩ := ih st' h (offOne_none hoff habs)
        exact ⟨m, by simp [off, hoff, hm]⟩

/-- Witness for C3 at a concrete missing name. -/
theorem onoff_C3_witness :
    ∃ m, (off initState ["x"] 0).2 = some (Fault.keyError m) :=
  onoff_C3 ["x"] initState 0 "x" (by decide) rfl

/-- Claim C10: when `unsubscribe` is called with a list of names in which a
later name is absent, the removals for all earlier names have already been
applied when the `KeyError` is raised, the remaining names are not processed,
and nothing is rolled back. -/
theorem onoff_C10 (ns₁ : List String) (st : OnOffState) (bad : String)
    (ns₂ : List String) (cb : Nat)
    (hall : ∀ n ∈ ns₁, (dictGet? st.events n).isSome)
    (hbad : dictGet? st.events bad = none) :
    off st (ns₁ ++ bad :: ns₂) cb =
      (ns₁.foldl (fun s n => offApply s n cb) st, some (Fault.keyError bad)) := by
  induction ns₁ generalizing st with
  | nil =>
    have h0 : offOne st bad cb = none := by unfold offOne; rw [hbad]
    simp [off, h0]
  | cons n rest ih =>
    have hn : (dictGet? st.events n).isSome := hall n (by simp)
    have h1 : offOne st n cb = some (offApply st n cb) := offOne_eq_offApply hn
    have hall' : ∀ m ∈ rest, (dictGet? (offApply st n cb).events m).isSome := by
      intro m hm
      have hm' := hall m (by simp [hm])
      by_cases hmn : m = n <;> simp [offApply, dictGet?_dictSet, hmn, hm']
    have hbad' : dictGet? (offApply st n cb).events bad = none := by
      have hnb : bad ≠ n := by
        rintro rfl
        rw [hbad] at hn
        cases hn
      simp [offApply, dictGet?_dictSet, hnb, hbad]
    simp only [List.cons_append, off, h1, List.append_eq]
    rw [ih (offApply st n cb) hall' hbad']
    simp

/-- Witness for C10 at a concrete scenario: the first name is processed, the
second raises, the third is never reached. -/
theorem onoff_C10_witness :
    off («on» initState ["a"] 0 none) ["a", "b", "c"] 0 =
      (["a"].foldl (fun s n => offApply s n 0) («on» initState ["a"] 0 none),
        some (Fault.keyError "b")) :=
  onoff_C10 ["a"] («on» initState ["a"] 0 none) "b" ["c"] 0 (by decide) rfl

/-! ## The counter invariant -/

theorem map_oid_inc (rec : CallbackObj) (L : List CallbackObj) :
    ((L.map fun q => if q.oid = rec.oid
        then (⟨q.oid, q.callback, q.times, q.calls + 1⟩ : CallbackObj) else q).map
      fun r => r.oid) = L.map fun r => r.oid := by
  induction L with
  | nil => rfl
  | cons q rest ih =>
    simp only [List.map_cons, ih]
    by_cases h : q.oid = rec.oid <;> simp [h]

theorem stepL_oid_sublist (rec : CallbackObj) (L : List CallbackObj) :
    List.Sublist ((stepL rec L).map fun r => r.oid) (L.map fun r => r.oid) := by
  unfold stepL
  by_cases hlim : limitReached rec
  · simp only [hlim, if_true]
    have h1 := (List.filter_sublist
        (l := L.map fun q => if q.oid = rec.oid
          then (⟨q.oid, q.callback, q.times, q.calls + 1⟩ : CallbackObj) else q)
        (p := fun q => q.callback != rec.callback)).map fun r => r.oid
    rw [map_oid_inc] at h1
    exact h1
  · rw [Bool.not_eq_true] at hlim
    simp only [hlim, Bool.false_eq_true, if_false]
    rw [map_oid_inc]

theorem mem_stepL {rec q' : CallbackObj} {L : List CallbackObj}
    (h : q' ∈ stepL rec L) :
    ∃ q ∈ L, q' = if q.oid = rec.oid
      then (⟨q.oid, q.callback, q.times, q.calls + 1⟩ : CallbackObj) else q := by
  unfold stepL at h
  by_cases hlim : limitReached rec
  · simp only [hlim, if_true] at h
    obtain ⟨q, hq, hqe⟩ := List.mem_map.mp (List.mem_of_mem_filter h)
    exact ⟨q, hq, hqe.symm⟩
  · rw [Bool.not_eq_true] at hlim
    simp only [hlim, Bool.false_eq_true, if_false] at h
    obtain ⟨q, hq, hqe⟩ := List.mem_map.mp h
    exact ⟨q, hq, hqe.symm⟩

theorem stepL_good {L : List CallbackObj} {n : Nat} (rec : CallbackObj)
    (hL : goodList L n) (hsync : ∀ q ∈ L, q.oid = rec.oid → q = rec) :
    goodList (stepL rec L) n := by
  obtain ⟨hnd, hbound, hcalls⟩ := hL
  refine ⟨(stepL_oid_sublist rec L).nodup hnd, ?_, ?_⟩
  · intro r hr
    obtain ⟨q, hq, hqe⟩ := mem_stepL hr
    have hro : r.oid = q.oid := by
      rw [hqe]
      by_cases h : q.oid = rec.oid <;> simp [h]
    rw [hro]
    exact hbound q hq
  · intro r hr t ht hpos
    unfold stepL at hr
    by_cases hlim : limitReached rec
    · simp only [hlim, if_true] at hr
      have hpred := (List.mem_filter.mp hr).2
      obtain ⟨q, hq, rfl⟩ := List.mem_map.mp (List.mem_of_mem_filter hr)
      by_cases hoid : q.oid = rec.oid
      · have hqr : q = rec := hsync q hq hoid
        exfalso
        rw [if_pos hoid] at hpred
        simp only [bne_iff_ne, ne_eq] at hpred
        exact hpred (by rw [hqr])
      · rw [if_neg hoid] at ht ⊢
        exact hcalls q hq t ht hpos
    · rw [Bool.not_eq_true] at hlim
      simp only [hlim, Bool.false_eq_true, if_false] at hr
      obtain ⟨q, hq, rfl⟩ := List.mem_map.mp hr
      by_cases hoid : q.oid = rec.oid
      · have hqr : q = rec := hsync q hq hoid
        rw [if_pos hoid] at ht ⊢
        have ht' : q.times = some t := ht
        have hlt : (q.calls : Int) < t := hcalls q hq t ht' hpos
        have hne : ¬(q.times = some ((q.calls : Int) + 1)) := by
          rw [← hqr] at hlim
          unfold limitReached at hlim
          exact of_decide_eq_false hlim
        have htne : t ≠ (q.calls : Int) + 1 := fun he => hne (by rw [ht', he])
        show (((q.calls + 1 : Nat)) : Int) < t
        push_cast
        omega
      · rw [if_neg hoid] at ht ⊢
        exact hcalls q hq t ht hpos

theorem passFold_good (S : List CallbackObj) :
    ∀ (L : List CallbackObj) (n : Nat),
    goodList L n →
    (∀ r ∈ S, ∀ q ∈ L, q.oid = r.oid → q = r) →
    ((S.map fun r => r.oid).Nodup) →
    goodList (passFold S L) n := by
  induction S with
  | nil => intro L n hL _ _; exact hL
  | cons rec rest ih =>
    intro L n hL hsync hnd
    rw [passFold]
    rw [List.map_cons, List.nodup_cons] at hnd
    apply ih
    · exact stepL_good rec hL (fun q hq hoid => hsync rec (by simp) q hq hoid)
    · intro r hr q' hq' hoid
      have hrne : r.oid ≠ rec.oid := by
        intro he
        exact hnd.1 (by rw [← he]; exact List.mem_map.mpr ⟨r, hr, rfl⟩)
      obtain ⟨q, hq, hqe⟩ := mem_stepL hq'
      by_cases hoidq : q.oid = rec.oid
      · rw [if_pos hoidq] at hqe
        have h1 : q'.oid = q.oid := by rw [hqe]
        exact absurd (by rw [← hoid, h1, hoidq]) hrne
      · rw [if_neg hoidq] at hqe
        rw [hqe] at hoid ⊢
        exact hsync r (by simp [hr]) q hq hoid
    · exact hnd.2

theorem goodList_mono {L : List CallbackObj} {n n' : Nat} (h : goodList L n)
    (hn : n ≤ n') : goodList L n' :=
  ⟨h.1, fun r hr => lt_of_lt_of_le (h.2.1 r hr) hn, h.2.2⟩

theorem getD_good {st : OnOffState} (hInv : Inv st) (ev : String) :
    goodList ((dictGet? st.events ev).getD []) st.nextOid := by
  cases h : dictGet? st.events ev with
  | none => simp [goodList]
  | some L => simpa using hInv (ev, L) (dictGet?_mem _ _ _ h)

theorem Inv_onOne {st : OnOffState} (ev : String) (cb : Nat) (ts : Option Int)
    (h : Inv st) : Inv (onOne st ev cb ts) := by
  intro p hp
  have hp' : p ∈ dictSet st.events ev
      (((dictGet? st.events ev).getD []) ++ [⟨st.nextOid, cb, ts, 0⟩]) := hp
  rcases mem_dictSet st.events ev _ p hp' with hpe | hpm
  · rw [hpe]
    show goodList (((dictGet? st.events ev).getD []) ++ [⟨st.nextOid, cb, ts, 0⟩])
      (st.nextOid + 1)
    obtain ⟨hnd, hb, hc⟩ := getD_good h ev
    refine ⟨?_, ?_, ?_⟩
    · rw [List.map_append]
      refine List.Nodup.append hnd (by simp) ?_
      rw [List.map_singleton, List.disjoint_singleton]
      intro hmem
      obtain ⟨r, hr, hroid⟩ := List.mem_map.mp hmem
      exact absurd hroid (Nat.ne_of_lt (hb r hr))
    · intro r hr
      rcases List.mem_append.mp hr with h1 | h1
      · exact Nat.lt_succ_of_lt (hb r h1)
      · rw [List.mem_singleton] at h1
        rw [h1]
        exact Nat.lt_succ_self _
    · intro r hr t ht hpos
      rcases List.mem_append.mp hr with h1 | h1
      · exact hc r h1 t ht hpos
      · rw [List.mem_singleton] at h1
        subst h1
        simpa using hpos
  · exact goodList_mono (h p hpm) (Nat.le_succ _)

theorem Inv_on (evs : List String) : ∀ (st : OnOffState) (cb : Nat)
    (ts : Option Int), Inv st → Inv («on» st evs cb ts) := by
  induction evs with
  | nil => intro st cb ts h; exact h
  | cons e es ih =>
    intro st cb ts h
    exact ih (onOne st e cb ts) cb ts (Inv_onOne e cb ts h)

theorem Inv_offOne {st st' : OnOffState} {ev : String} {cb : Nat}
    (h : offOne st ev cb = some st') (hInv : Inv st) : Inv st' := by
  unfold offOne at h
  cases hev : dictGet? st.events ev with
  | none => rw [hev] at h; cases h
  | some lst =>
    rw [hev] at h
    simp only [Option.some.injEq] at h
    rw [← h]
    intro p hp
    rcases mem_dictSet st.events ev _ p hp with hpe | hpm
    · rw [hpe]
      show goodList (lst.filter fun o => o.callback != cb) st.nextOid
      have hg := hInv (ev, lst) (dictGet?_mem _ _ _ hev)
      exact ⟨((List.filter_sublist lst).map fun r => r.oid).nodup hg.1,
        fun r hr => hg.2.1 r (List.mem_of_mem_filter hr),
        fun r hr => hg.2.2 r (List.mem_of_mem_filter hr)⟩
    · exact hInv p hpm

theorem Inv_off (evs : List String) : ∀ (st : OnOffState) (cb : Nat),
    Inv st → Inv (off st evs cb).1 := by
  induction evs with
  | nil => intro st cb h; exact h
  | cons e es ih =>
    intro st cb h
    rw [off]
    cases hoff : offOne st e cb with
    | none => simp only [hoff]; exact h
    | some st' => simp only [hoff]; exact ih st' cb (Inv_offOne hoff h)

theorem fails_split (fails : Nat → Bool) (S : List CallbackObj) :
    (∀ r ∈ S, fails r.callback = false) ∨
    ∃ L₁ rec L₂, S = L₁ ++ rec :: L₂ ∧ (∀ r ∈ L₁, fails r.callback = false) ∧
      fails rec.callback = true := by
  induction S with
  | nil => exact Or.inl (fun r hr => absurd hr (List.not_mem_nil r))
  | cons p rest ih =>
    cases hf : fails p.callback with
    | true =>
      exact Or.inr ⟨[], p, rest, rfl, fun r hr => absurd hr (List.not_mem_nil r), hf⟩
    | false =>
      rcases ih with hall | ⟨L₁, rec, L₂, hS, hok, hrec⟩
      · refine Or.inl (fun r hr => ?_)
        rcases List.mem_cons.mp hr with rfl | hr'
        · exact hf
        · exact hall r hr'
      · refine Or.inr ⟨p :: L₁, rec, L₂, by rw [hS, List.cons_append], ?_, hrec⟩
        intro r hr
        rcases List.mem_cons.mp hr with rfl | hr'
        · exact hf
        · exact hok r hr'

theorem Inv_passState {st : OnOffState} {ev : String} {S S₁ : List CallbackObj}
    (hInv : Inv st) (h : dictGet? st.events ev = some S)
    (hsub : List.Sublist S₁ S) :
    Inv (⟨dictSet st.events ev (passFold S₁ S), st.nextOid⟩ : OnOffState) := by
  intro p hp
  rcases mem_dictSet st.events ev _ p hp with hpe | hpm
  · rw [hpe]
    show goodList (passFold S₁ S) st.nextOid
    have hg := hInv (ev, S) (dictGet?_mem _ _ _ h)
    apply passFold_good S₁ S st.nextOid hg
    · intro r hr q hq hoid
      exact List.inj_on_of_nodup_map hg.1 hq (hsub.subset hr) hoid
    · exact ((hsub.map fun r => r.oid)).nodup hg.1
  · exact hInv p hpm

theorem Inv_triggerEvents (fails : Nat → Bool) (args : List Nat)
    (names : List String) : ∀ (st : OnOffState) (tr : List (Nat × List Nat)),
    Inv st → Inv (triggerEvents fails args names st tr).1 := by
  induction names with
  | nil => intro st tr h; exact h
  | cons ev rest ih =>
    intro st tr h
    rw [triggerEvents.eq_def]
    cases hev : dictGet? st.events ev with
    | none => simp only [hev]; exact ih st tr h
    | some S =>
      simp only [hev]
      rcases fails_split fails S with hall | ⟨L₁, rec, L₂, hS, hok, hrec⟩
      · rw [triggerSnap_run fails ev args S st tr S hev hall]
        exact ih _ _ (Inv_passState h hev (List.Sublist.refl S))
      · subst hS
        rw [triggerSnap_fault fails ev args L₁ rec L₂ st tr _ hev hok hrec]
        exact Inv_passState h hev (List.sublist_append_left L₁ (rec :: L₂))

/-- Claim C6: the counter invariant is preserved by every operation.  For a
well-formed registry (distinct record objects, each limited record strictly
below its limit), `on`, `once`, `off` and `trigger` (the latter for any
callback fault assignment, whether the call returns or propagates a fault)
all yield a well-formed registry again; and in a well-formed registry every
record with a positive limit has strictly fewer calls than its limit — so
its count never exceeds the limit, and a record whose count has reached its
limit is never present for a later dispatch to increment again. -/
theorem onoff_C6 (st : OnOffState) (hInv : Inv st) :
    (∀ names cb ts, Inv («on» st names cb ts)) ∧
    (∀ names cb, Inv (once st names cb)) ∧
    (∀ names cb, Inv (off st names cb).1) ∧
    (∀ fails names args, Inv (trigger fails st names args).1) ∧
    (∀ p ∈ st.events, ∀ r ∈ p.2, ∀ t : Int, r.times = some t → 0 < t →
      (r.calls : Int) < t) :=
  ⟨fun names cb ts => Inv_on names st cb ts hInv,
   fun names cb => Inv_on names st cb (some 1) hInv,
   fun names cb => Inv_off names st cb hInv,
   fun fails names args => Inv_triggerEvents fails args names st [] hInv,
   fun p hp r hr t ht hpos => (hInv p hp).2.2 r hr t ht hpos⟩

/-- Witness for C6: the invariant holds for a concretely built registry and
is preserved by a publish on it. -/
theorem onoff_C6_witness :
    Inv (trigger noFail («on» initState ["e"] 0 (some 2)) ["e"] []).1 := by
  have hInv : Inv («on» initState ["e"] 0 (some 2)) := by
    intro p hp
    have hp' : p ∈ [("e", [(⟨0, 0, some 2, 0⟩ : CallbackObj)])] := hp
    rw [List.mem_singleton] at hp'
    subst hp'
    show goodList [(⟨0, 0, some 2, 0⟩ : CallbackObj)] 1
    refine ⟨by simp, by simp, ?_⟩
    intro r hr t ht hpos
    rw [List.mem_singleton] at hr
    subst hr
    have ht' : some (2 : Int) = some t := ht
    rw [Option.some.injEq] at ht'
    show ((0 : Nat) : Int) < t
    omega
  exact (onoff_C6 («on» initState ["e"] 0 (some 2)) hInv).2.2.2.1 noFail ["e"] []

/-- Claim C1 counterexample: an unbounded listener registered on an event is
removed without any explicit unsubscribe when another record with the same
callback reaches its limit during a publish: the auto-removal performed by
`trigger` calls `off(event, callback)`, which removes every record with that
callback.  After the first publish the unbounded record is gone and the
second publish invokes nothing. -/
theorem onoff_C1_counterexample :
    dictGet? (pubIter "e" [] 1
        («on» («on» initState ["e"] 5 (some 1)) ["e"] 5 none)).events "e" = some [] ∧
    (trigger noFail (pubIter "e" [] 1
        («on» («on» initState ["e"] 5 (some 1)) ["e"] 5 none)) ["e"] []).2.1 =
      [] := by decide

/-- Claim C9 counterexample: a listener registered with `times = 0` is
auto-removed (with no explicit unsubscribe) when a record with the same
callback reaches its limit, and is then no longer invoked: it does not
persist unconditionally. -/
theorem onoff_C9_counterexample :
    dictGet? (pubIter "e" [] 1
        («on» («on» initState ["e"] 4 (some 0)) ["e"] 4 (some 1))).events "e" = some [] ∧
    (trigger noFail (pubIter "e" [] 1
        («on» («on» initState ["e"] 4 (some 0)) ["e"] 4 (some 1))) ["e"] []).2.1 =
      [] := by decide

/-! ## Survival of records whose callback never hits a limit -/

theorem passFold_persist (S : List CallbackObj) :
    ∀ (L : List CallbackObj) (r : CallbackObj), r ∈ L →
    (∀ rec ∈ S, limitReached rec = true → rec.callback ≠ r.callback) →
    ∃ r' ∈ passFold S L, r'.oid = r.oid ∧ r'.callback = r.callback ∧
      r'.times = r.times := by
  induction S with
  | nil => intro L r hr _; exact ⟨r, hr, rfl, rfl, rfl⟩
  | cons rec rest ih =>
    intro L r hr hno
    rw [passFold]
    have hfields : ∀ q : CallbackObj,
        (if q.oid = rec.oid
          then (⟨q.oid, q.callback, q.times, q.calls + 1⟩ : CallbackObj) else q).oid
            = q.oid ∧
        (if q.oid = rec.oid
          then (⟨q.oid, q.callback, q.times, q.calls + 1⟩ : CallbackObj) else q).callback
            = q.callback ∧
        (if q.oid = rec.oid
          then (⟨q.oid, q.callback, q.times, q.calls + 1⟩ : CallbackObj) else q).times
            = q.times := by
      intro q
      by_cases hq : q.oid = rec.oid <;> simp [hq]
    have hmem : (if r.oid = rec.oid
        then (⟨r.oid, r.callback, r.times, r.calls + 1⟩ : CallbackObj) else r)
          ∈ stepL rec L := by
      unfold stepL
      by_cases hlim : limitReached rec
      · simp only [hlim, if_true]
        refine List.mem_filter.mpr ⟨List.mem_map.mpr ⟨r, hr, rfl⟩, ?_⟩
        simp only [(hfields r).2.1]
        exact bne_iff_ne.mpr (Ne.symm (hno rec (List.mem_cons_self rec rest) hlim))
      · rw [Bool.not_eq_true] at hlim
        simp only [hlim, Bool.false_eq_true, if_false]
        exact List.mem_map.mpr ⟨r, hr, rfl⟩
    obtain ⟨r', hr', h1, h2, h3⟩ := ih (stepL rec L) _ hmem (fun rc hrc hl => by
      rw [(hfields r).2.1]
      exact hno rc (List.mem_cons_of_mem rec hrc) hl)
    exact ⟨r', hr', by rw [h1, (hfields r).1], by rw [h2, (hfields r).2.1],
      by rw [h3, (hfields r).2.2]⟩

/-- Claim C1 (amended): when a record reaches its limit during a publish, the
auto-removal removes every record on that event whose callback equals the
exhausted record's callback — including an unbounded record sharing that
callback — while records with other callbacks survive and are still invoked;
and an unbounded (or any) record whose callback coincides with no
limit-reaching record of the pass survives the publish with its identity,
callback and limit intact, having been invoked. -/
theorem onoff_C1_amended :
    (∀ (cb cb' : Nat) (args : List Nat), cb ≠ cb' →
      (trigger noFail («on» («on» («on» initState ["e"] cb (some 1)) ["e"] cb none)
          ["e"] cb' none) ["e"] args).2.1 =
        [(cb, args), (cb, args), (cb', args)] ∧
      dictGet? (trigger noFail («on» («on» («on» initState ["e"] cb (some 1))
          ["e"] cb none) ["e"] cb' none) ["e"] args).1.events "e" =
        some [⟨2, cb', none, 1⟩]) ∧
    (∀ (st : OnOffState) (ev : String) (args : List Nat) (S : List CallbackObj)
      (r : CallbackObj), dictGet? st.events ev = some S → r ∈ S →
      (∀ rec ∈ S, limitReached rec = true → rec.callback ≠ r.callback) →
      (trigger noFail st [ev] args).2.1 = S.map (fun q => (q.callback, args)) ∧
      ∃ r' ∈ (dictGet? (trigger noFail st [ev] args).1.events ev).getD [],
        r'.oid = r.oid ∧ r'.callback = r.callback ∧ r'.times = r.times) := by
  constructor
  · intro cb cb' args h
    rw [trigger_one noFail («on» («on» («on» initState ["e"] cb (some 1)) ["e"] cb none)
        ["e"] cb' none) "e" args
        [⟨0, cb, some 1, 0⟩, ⟨1, cb, none, 0⟩, ⟨2, cb', none, 0⟩] rfl (fun _ _ => rfl)]
    refine ⟨rfl, ?_⟩
    have h0 : limitReached (⟨0, cb, some 1, 0⟩ : CallbackObj) = true := rfl
    have h1 : limitReached (⟨1, cb, none, 0⟩ : CallbackObj) = false := rfl
    have h2 : limitReached (⟨2, cb', none, 0⟩ : CallbackObj) = false := rfl
    have s0 : stepL ⟨0, cb, some 1, 0⟩
        [⟨0, cb, some 1, 0⟩, ⟨1, cb, none, 0⟩, ⟨2, cb', none, 0⟩] =
          [⟨2, cb', none, 0⟩] := by
      unfold stepL
      simp [h0, Ne.symm h]
    have s1 : stepL ⟨1, cb, none, 0⟩ [⟨2, cb', none, 0⟩] = [⟨2, cb', none, 0⟩] := by
      unfold stepL
      simp [h1]
    have s2 : stepL ⟨2, cb', none, 0⟩ [⟨2, cb', none, 0⟩] = [⟨2, cb', none, 1⟩] := by
      unfold stepL
      simp [h2]
    show dictGet? (dictSet («on» («on» («on» initState ["e"] cb (some 1)) ["e"] cb none)
        ["e"] cb' none).events "e"
        (passFold [⟨0, cb, some 1, 0⟩, ⟨1, cb, none, 0⟩, ⟨2, cb', none, 0⟩]
          [⟨0, cb, some 1, 0⟩, ⟨1, cb, none, 0⟩, ⟨2, cb', none, 0⟩])) "e" =
      some [⟨2, cb', none, 1⟩]
    rw [dictGet?_dictSet, if_pos rfl, passFold, passFold, passFold, passFold, s0, s1, s2]
  · intro st ev args S r hS hr hno
    rw [trigger_one noFail st ev args S hS (fun _ _ => rfl)]
    refine ⟨rfl, ?_⟩
    show ∃ r' ∈ (dictGet? (dictSet st.events ev (passFold S S)) ev).getD [],
      r'.oid = r.oid ∧ r'.callback = r.callback ∧ r'.times = r.times
    rw [dictGet?_dictSet, if_pos rfl]
    simp only [Option.getD_some]
    exact passFold_persist S S r hr hno

/-- Witness for the amended C1: the concrete removal scenario with callbacks
0 and 1. -/
theorem onoff_C1_amended_witness :
    (trigger noFail («on» («on» («on» initState ["e"] 0 (some 1)) ["e"] 0 none)
        ["e"] 1 none) ["e"] []).2.1 = [(0, []), (0, []), (1, [])] :=
  (onoff_C1_amended.1 0 1 [] (by decide)).1

/-- The auto-removal test can never fire for a record whose times value is
non-positive: after the increment the counter is at least 1. -/
theorem limitReached_nonpos (rec : CallbackObj) (t : Int) (ht : rec.times = some t)
    (hle : t ≤ 0) : limitReached rec = false := by
  unfold limitReached
  rw [ht]
  apply decide_eq_false
  intro heq
  rw [Option.some.injEq] at heq
  have h0 : (0 : Int) ≤ (rec.calls : Int) := Int.ofNat_nonneg _
  omega

/-- Claim C9 (amended): a listener registered with `times = 0` (or any
non-positive times) is never auto-removed by its own limit check, since the
check compares the post-increment count (1, 2, 3, ...) for equality with
times; in isolation it behaves exactly like an unbounded listener, staying
registered with its count advancing and being invoked on every publish. -/
theorem onoff_C9_amended :
    (∀ (rec : CallbackObj) (t : Int), rec.times = some t → t ≤ 0 →
      limitReached rec = false) ∧
    (∀ (cb : Nat) (t : Int) (args : List Nat) (k : Nat), t ≤ 0 →
      dictGet? (pubIter "e" args k («on» initState ["e"] cb (some t))).events "e" =
        some [⟨0, cb, some t, k⟩] ∧
      (trigger noFail (pubIter "e" args k («on» initState ["e"] cb (some t)))
          ["e"] args).2.1 = [(cb, args)]) := by
  refine ⟨limitReached_nonpos, ?_⟩
  intro cb t args k hle
  have hP : ∀ j : Nat,
      dictGet? (pubIter "e" args j («on» initState ["e"] cb (some t))).events "e" =
        some [⟨0, cb, some t, j⟩] := by
    intro j
    induction j with
    | zero => rfl
    | succ j ihj =>
      rw [pubIter]
      rw [trigger_one noFail (pubIter "e" args j («on» initState ["e"] cb (some t)))
          "e" args [⟨0, cb, some t, j⟩] ihj (fun _ _ => rfl)]
      show dictGet? (dictSet (pubIter "e" args j
          («on» initState ["e"] cb (some t))).events "e"
          (passFold [⟨0, cb, some t, j⟩] [⟨0, cb, some t, j⟩])) "e" =
        some [⟨0, cb, some t, j + 1⟩]
      rw [dictGet?_dictSet, if_pos rfl, passFold, passFold]
      unfold stepL
      rw [limitReached_nonpos ⟨0, cb, some t, j⟩ t rfl hle]
      simp
  refine ⟨hP k, ?_⟩
  rw [trigger_one noFail (pubIter "e" args k («on» initState ["e"] cb (some t)))
      "e" args [⟨0, cb, some t, k⟩] (hP k) (fun _ _ => rfl)]
  rfl

/-- Witness for the amended C9: a times = 0 listener is still registered,
with its count advanced, after two publishes. -/
theorem onoff_C9_amended_witness :
    dictGet? (pubIter "e" [] 2 («on» initState ["e"] 3 (some 0))).events "e" =
      some [⟨0, 3, some 0, 2⟩] :=
  (onoff_C9_amended.2 3 0 [] 2 (by decide)).1

end Onoff
